import Mathlib

/-!
Verification of the RESP decoder and command interpreter in `src/parser.rs`
of an in-memory Redis-like server.

Buffers are modelled as `List Nat` (one `Nat` per byte); machine `usize`
cursors are `Nat`; Rust `i64`/`u64` parsing carries explicit range checks.
Rust code that can abort (out-of-bounds slice indexing, `Option::unwrap`,
`Result::unwrap`) is modelled by an explicit `panic` outcome in the result
type `PResult`, so that "panics" is a provable/refutable proposition.
Recursion in `parse` (arrays decode nested values) is fuelled; the public
wrapper `parse` supplies `buf.length + 1` fuel, which is never exhausted
because each nested decode starts at a strictly larger cursor that must
still be in bounds for recursion to continue.
-/

namespace Redis

/-- `errors.rs`: `pub enum RESPError`.  `IOError` is omitted: stream writes
are modelled as pure accumulation of reply bytes and cannot fail here. -/
inductive RESPError where
  | unexpectedEnd
  | unknownStartingByte
  | parsingError
  | intParseFailure
  | badBulkStringSize (n : Int)
  | badArraySize (n : Int)
  | invalidCommand
  | invalidArguments
deriving Repr, DecidableEq

/-- `parser.rs`: `pub enum RedisValue`.  Rust `String` payloads are kept as
their UTF-8 byte sequences (`List Nat`); the decoder's
`from_utf8(..).unwrap()` is modelled by an explicit UTF-8 validity check. -/
inductive RedisValue where
  | string (s : List Nat)
  | error (s : List Nat)
  | int (i : Int)
  | array (xs : List RedisValue)
  | nullArray
  | nullBulkString
deriving Repr

/-- Outcome of a decoding function: `ok` and `err` mirror the Rust
`Result<_, RESPError>`; `panic` marks a Rust abort (index out of bounds or
a failed `unwrap`); `outOfFuel` is an artifact of the fuelled recursion and
is unreachable through the public `parse` wrapper. -/
inductive PResult (α : Type) where
  | ok (a : α)
  | err (e : RESPError)
  | panic
  | outOfFuel
deriving Repr

/-- Scan for the first carriage-return byte (13) at index ≥ `pos`,
walking the suffix of the buffer.  This is the loop inside `word`:
it neither looks at the byte after the `\r` nor requires one to exist. -/
def findCRAux : List Nat → Nat → Option Nat
  | [], _ => none
  | b :: r, pos => if b = 13 then some pos else findCRAux r (pos + 1)

/-- Index of the first `\r` at or after `pos`, if any. -/
def findCR (buf : List Nat) (pos : Nat) : Option Nat :=
  findCRAux (buf.drop pos) pos

/-- `parser.rs`: `fn word(buf, pos) -> Option<(usize, BufSplit)>`.
Returns the new cursor `end + 2` (two past the `\r`, without checking that
a `\n` — or any byte — follows) and the split bounds `(pos, end)`. -/
def word (buf : List Nat) (pos : Nat) : Option (Nat × Nat × Nat) :=
  match findCR buf pos with
  | some e => some (e + 2, pos, e)
  | none => none

/-- `BufSplit::as_slice`: the bytes `buf[a..b]`. -/
def sliceOf (buf : List Nat) (a b : Nat) : List Nat :=
  (buf.drop a).take (b - a)

/-- UTF-8 continuation byte (0x80..0xBF). -/
def isCont (b : Nat) : Bool := 128 ≤ b && b ≤ 191

/-- Fuelled UTF-8 validity scanner following the byte-level rules enforced
by Rust's `std::str::from_utf8` (rejecting overlong forms, surrogates and
code points above U+10FFFF).  Fuel `l.length` always suffices since each
step consumes at least one byte. -/
def utf8Ok : Nat → List Nat → Bool
  | _, [] => true
  | 0, _ :: _ => false
  | f + 1, b :: rest =>
    if b ≤ 127 then utf8Ok f rest
    else if b < 194 then false
    else if b ≤ 223 then
      match rest with
      | c1 :: r => isCont c1 && utf8Ok f r
      | [] => false
    else if b = 224 then
      match rest with
      | c1 :: c2 :: r => (160 ≤ c1 && c1 ≤ 191) && isCont c2 && utf8Ok f r
      | _ => false
    else if b ≤ 236 then
      match rest with
      | c1 :: c2 :: r => isCont c1 && isCont c2 && utf8Ok f r
      | _ => false
    else if b = 237 then
      match rest with
      | c1 :: c2 :: r => (128 ≤ c1 && c1 ≤ 159) && isCont c2 && utf8Ok f r
      | _ => false
    else if b ≤ 239 then
      match rest with
      | c1 :: c2 :: r => isCont c1 && isCont c2 && utf8Ok f r
      | _ => false
    else if b = 240 then
      match rest with
      | c1 :: c2 :: c3 :: r => (144 ≤ c1 && c1 ≤ 191) && isCont c2 && isCont c3 && utf8Ok f r
      | _ => false
    else if b ≤ 243 then
      match rest with
      | c1 :: c2 :: c3 :: r => isCont c1 && isCont c2 && isCont c3 && utf8Ok f r
      | _ => false
    else if b = 244 then
      match rest with
      | c1 :: c2 :: c3 :: r => (128 ≤ c1 && c1 ≤ 143) && isCont c2 && isCont c3 && utf8Ok f r
      | _ => false
    else false

/-- Whether a byte sequence is valid UTF-8 (`std::str::from_utf8` succeeds). -/
def isValidUtf8 (l : List Nat) : Bool := utf8Ok l.length l

/-- ASCII decimal digit `0`..`9`. -/
def isDigit (b : Nat) : Bool := 48 ≤ b && b ≤ 57

/-- Accumulating decimal evaluation of a digit string; `none` as soon as a
non-digit byte is seen. -/
def digitsVal (acc : Nat) : List Nat → Option Nat
  | [] => some acc
  | b :: r => if isDigit b then digitsVal (acc * 10 + (b - 48)) r else none

/-- Value of a non-empty digit string (`str::parse` requires at least one
digit after the optional sign). -/
def digitsNE : List Nat → Option Nat
  | [] => none
  | l => digitsVal 0 l

/-- Bound-checked positive result of `str::parse::<i64>`. -/
def posCase : Option Nat → Option Int
  | some m => if m ≤ 9223372036854775807 then some (m : Int) else none
  | none => none

/-- Bound-checked negative result of `str::parse::<i64>`. -/
def negCase : Option Nat → Option Int
  | some m => if m ≤ 9223372036854775808 then some (-(m : Int)) else none
  | none => none

/-- Rust `str::parse::<i64>` on raw bytes: optional `+`/`-` sign (43/45),
then one or more ASCII digits, within the `i64` range.  Nat sequences that
are not of this shape — including any non-UTF-8 ones — fail, matching the
source's collapse of both `from_utf8` and parse errors into one error. -/
def parseI64 (s : List Nat) : Option Int :=
  match s with
  | [] => none
  | b :: r =>
    if b = 43 then posCase (digitsNE r)
    else if b = 45 then negCase (digitsNE r)
    else posCase (digitsNE (b :: r))

/-- Bound-checked result of `str::parse::<u64>`. -/
def u64Case : Option Nat → Option Nat
  | some m => if m ≤ 18446744073709551615 then some m else none
  | none => none

/-- Rust `str::parse::<u64>` on raw bytes: optional `+` (no `-`), then one
or more ASCII digits, within the `u64` range. -/
def parseU64 (s : List Nat) : Option Nat :=
  match s with
  | [] => none
  | b :: r =>
    if b = 43 then u64Case (digitsNE r)
    else u64Case (digitsNE (b :: r))

/-- `parser.rs`: `fn simple_string`.  On a complete word the source runs
`from_utf8(word.as_slice(buf)).unwrap()`: invalid UTF-8 aborts the thread,
modelled by `.panic`. -/
def simple_string (buf : List Nat) (pos : Nat) : PResult (Option (Nat × RedisValue)) :=
  match word buf pos with
  | some (pos2, a, b) =>
    let s := sliceOf buf a b
    if isValidUtf8 s then .ok (some (pos2, .string s)) else .panic
  | none => .ok none

/-- `parser.rs`: `fn error`, identical to `simple_string` but tagging the
payload as an error reply. -/
def error (buf : List Nat) (pos : Nat) : PResult (Option (Nat × RedisValue)) :=
  match word buf pos with
  | some (pos2, a, b) =>
    let s := sliceOf buf a b
    if isValidUtf8 s then .ok (some (pos2, .error s)) else .panic
  | none => .ok none

/-- `parser.rs`: `fn int`, a word parsed as a signed 64-bit decimal;
both UTF-8 and numeric failures map to `IntParseFailure`. -/
def int (buf : List Nat) (pos : Nat) : PResult (Option (Nat × Int)) :=
  match word buf pos with
  | some (pos2, a, b) =>
    match parseI64 (sliceOf buf a b) with
    | some i => .ok (some (pos2, i))
    | none => .err .intParseFailure
  | none => .ok none

/-- `parser.rs`: `fn redis_int`. -/
def redis_int (buf : List Nat) (pos : Nat) : PResult (Option (Nat × RedisValue)) :=
  match int buf pos with
  | .ok (some (pos2, i)) => .ok (some (pos2, .int i))
  | .ok none => .ok none
  | .err e => .err e
  | .panic => .panic
  | .outOfFuel => .outOfFuel

/-- `parser.rs`: `fn bulk_string`.  Reads the declared length; `-1` is the
null sentinel; a shorter buffer than `pos + size + 2` is a partial read;
otherwise the payload is re-read by `simple_string`, i.e. up to the first
`\r`, not by taking `size` bytes. -/
def bulk_string (buf : List Nat) (pos : Nat) : PResult (Option (Nat × RedisValue)) :=
  match int buf pos with
  | .ok (some (pos2, size)) =>
    if size = -1 then .ok (some (pos2, .nullBulkString))
    else if 0 ≤ size then
      if buf.length < pos2 + size.toNat + 2 then .ok none
      else simple_string buf pos2
    else .err (.badBulkStringSize size)
  | .ok none => .ok none
  | .err e => .err e
  | .panic => .panic
  | .outOfFuel => .outOfFuel

/-- The element loop inside `fn array`: decode `n` nested values in
sequence with `p` (the nested `parse` at the current fuel), threading the
cursor; a nested `Ok(None)` aborts the whole array with `UnexpectedEnd`. -/
def parseElems (p : List Nat → Nat → PResult (Option (Nat × RedisValue)))
    (buf : List Nat) : Nat → Nat → PResult (Nat × List RedisValue)
  | 0, pos => .ok (pos, [])
  | n + 1, pos =>
    match p buf pos with
    | .ok (some (pos2, v)) =>
      match parseElems p buf n pos2 with
      | .ok (pos3, vs) => .ok (pos3, v :: vs)
      | .err e => .err e
      | .panic => .panic
      | .outOfFuel => .outOfFuel
    | .ok none => .err .unexpectedEnd
    | .err e => .err e
    | .panic => .panic
    | .outOfFuel => .outOfFuel

/-- `parser.rs`: `fn array`.  Note the source returns `Ok(Some((pos, ...)))`
where `pos` is the cursor right after the element-count word — the cursor
`curr_pos` accumulated over the elements is shadowed and discarded — so the
returned position does not cover the decoded elements.  The model returns
`pos2` and ignores the loop's final cursor accordingly. -/
def array (p : List Nat → Nat → PResult (Option (Nat × RedisValue)))
    (buf : List Nat) (pos : Nat) : PResult (Option (Nat × RedisValue)) :=
  match int buf pos with
  | .ok (some (pos2, size)) =>
    if size = -1 then .ok (some (pos2, .nullArray))
    else if 0 ≤ size then
      match parseElems p buf size.toNat pos2 with
      | .ok (_currPos, vs) => .ok (some (pos2, .array vs))
      | .err e => .err e
      | .panic => .panic
      | .outOfFuel => .outOfFuel
    else .err (.badArraySize size)
  | .ok none => .ok none
  | .err e => .err e
  | .panic => .panic
  | .outOfFuel => .outOfFuel

/-- `parser.rs`: `pub fn parse(buf, pos)`, fuelled.  An empty buffer is a
partial read for any `pos`; otherwise the source indexes `buf[pos]`
unconditionally, which panics when `pos ≥ buf.len()` on a non-empty buffer. -/
def parseF : Nat → List Nat → Nat → PResult (Option (Nat × RedisValue))
  | 0, _, _ => .outOfFuel
  | fuel + 1, buf, pos =>
    match buf with
    | [] => .ok none
    | _ :: _ =>
      match buf[pos]? with
      | some 42 => array (parseF fuel) buf (pos + 1)
      | some 36 => bulk_string buf (pos + 1)
      | some 43 => simple_string buf (pos + 1)
      | some 45 => error buf (pos + 1)
      | some 58 => redis_int buf (pos + 1)
      | some _ => .err .unknownStartingByte
      | none => .panic

/-- `pub fn parse`: the fuel `buf.length + 1` is never exhausted, because
every recursive decode (only reachable through `array`) starts at a cursor
strictly beyond the current one while recursion requires the cursor to stay
inside the buffer. -/
def parse (buf : List Nat) (pos : Nat) : PResult (Option (Nat × RedisValue)) :=
  parseF (buf.length + 1) buf pos

/-- Fuelled most-significant-first decimal digit rendering: prepends the
ASCII digits of `n` (empty once `n = 0`) to `acc`; `fuel ≥ n` suffices. -/
def natToDigits : Nat → Nat → List Nat → List Nat
  | 0, _, acc => acc
  | f + 1, n, acc => if n = 0 then acc else natToDigits f (n / 10) ((n % 10 + 48) :: acc)

/-- ASCII decimal rendering of a `Nat`, as produced by Rust's `{}`
formatting of `usize` lengths. -/
def natDigits (n : Nat) : List Nat := if n = 0 then [48] else natToDigits n n []

/-- ASCII decimal rendering of an `Int` (`-` prefix for negatives). -/
def intDigits (i : Int) : List Nat :=
  if i < 0 then 45 :: natDigits i.natAbs else natDigits i.toNat

mutual

/-- Modelled from the spec: the repository has no `encode` function (the
round-trip property of §8 refers to one), so the wire framing is taken
from §6 and §4.2 of the spec: `Text` payloads are framed as bulk strings
(`$<len>\r\n<bytes>\r\n`, the framing used for every request-side string
and for bulk replies), errors as `-<msg>\r\n`, integers as `:<n>\r\n`,
arrays as `*<n>\r\n` followed by the encoded elements, and the null
sentinels as the fixed `$-1\r\n` / `*-1\r\n`. -/
def encode : RedisValue → List Nat
  | .string s => 36 :: natDigits s.length ++ [13, 10] ++ s ++ [13, 10]
  | .error s => 45 :: s ++ [13, 10]
  | .int i => 58 :: intDigits i ++ [13, 10]
  | .array xs => 42 :: natDigits xs.length ++ [13, 10] ++ encodeList xs
  | .nullArray => [42, 45, 49, 13, 10]
  | .nullBulkString => [36, 45, 49, 13, 10]

/-- The concatenated encodings of a list of values (the body of an array). -/
def encodeList : List RedisValue → List Nat
  | [] => []
  | v :: vs => encode v ++ encodeList vs

end

/-- `parser.rs`: `pub struct Expiry(Instant, Duration)`, modelled in
milliseconds: the creation instant as a timestamp and the duration. -/
abbrev Expiry := Nat × Nat

/-- `parser.rs`: `pub type KVStore = HashMap<String, (String, Option<Expiry>)>`,
modelled as an association list with at most one entry per key. -/
abbrev KVStore := List (List Nat × (List Nat × Option Expiry))

/-- `HashMap::get`. -/
def storeGet (store : KVStore) (k : List Nat) : Option (List Nat × Option Expiry) :=
  match store with
  | [] => none
  | (k2, v) :: r => if k2 = k then some v else storeGet r k

/-- `HashMap::insert`: replace the entry for `k`, or add one. -/
def storeInsert (store : KVStore) (k : List Nat) (v : List Nat × Option Expiry) : KVStore :=
  match store with
  | [] => [(k, v)]
  | (k2, v2) :: r => if k2 = k then (k, v) :: r else (k2, v2) :: storeInsert r k v

/-- Nat-wise ASCII lowercasing, modelling `str::to_lowercase` for the
comparisons in `execute`.  (Rust's `to_lowercase` is Unicode-aware, but
for the command words `ping`/`echo`/`get`/`set`/`px` the two agree: the
only non-ASCII character whose Unicode lowercase is a bare ASCII letter is
U+212A KELVIN SIGN → `k`, which occurs in none of those words.) -/
def lowerAscii (s : List Nat) : List Nat :=
  s.map fun b => if 65 ≤ b && b ≤ 90 then b + 32 else b

/-- `parser.rs`: `const NULL: &[u8] = b"$-1\r\n"`. -/
def NULL : List Nat := [36, 45, 49, 13, 10]

/-- `parser.rs`: `const OK: &[u8] = b"+OK\r\n"`. -/
def OK : List Nat := [43, 79, 75, 13, 10]

/-- The `b"+PONG\r\n"` reply written by the `ping` arm. -/
def PONG : List Nat := [43, 80, 79, 78, 71, 13, 10]

/-- The bytes of `format!("${}\r\n{}\r\n", s.len(), s)`: a bulk-string
frame around `s`. -/
def bulkFrame (s : List Nat) : List Nat :=
  36 :: natDigits s.length ++ [13, 10] ++ s ++ [13, 10]

/-- ASCII bytes of `ping`. -/
def pingWord : List Nat := [112, 105, 110, 103]

/-- ASCII bytes of `echo`. -/
def echoWord : List Nat := [101, 99, 104, 111]

/-- ASCII bytes of `get`. -/
def getWord : List Nat := [103, 101, 116]

/-- ASCII bytes of `set`. -/
def setWord : List Nat := [115, 101, 116]

/-- ASCII bytes of `px`. -/
def pxWord : List Nat := [112, 120]

/-- `parser.rs`: `pub fn execute(stream, msg, store)`.  The `TcpStream` is
modelled by the reply bytes written to it (`write_all` cannot fail here,
so the `IOError` path is absent); `Instant::now()` is the `now` parameter
in milliseconds; the possibly-mutated store is returned alongside.  Every
error is returned before any write or insert, so on the `.error` side the
reply is empty and the store unchanged, as in the source. -/
def execute (now : Nat) (msg : List RedisValue) (store : KVStore) :
    Except RESPError (List Nat) × KVStore :=
  match msg with
  | [] => (.error .unknownStartingByte, store)
  | first :: _ =>
    match first with
    | .string cmdStr =>
      let cmd := lowerAscii cmdStr
      if cmd = pingWord then (.ok PONG, store)
      else if cmd = echoWord then
        if msg.length < 2 then (.error .invalidArguments, store)
        else
          match msg[1]? with
          | some (RedisValue.string s) => (.ok (bulkFrame s), store)
          | _ => (.ok [], store)
      else if cmd = getWord then
        if msg.length < 2 then (.error .invalidArguments, store)
        else
          match msg[1]? with
          | some (RedisValue.string key) =>
            match storeGet store key with
            | some (v, none) => (.ok (bulkFrame v), store)
            | some (v, some (start, dur)) =>
              if now - start < dur then (.ok (bulkFrame v), store)
              else (.ok NULL, store)
            | none => (.ok NULL, store)
          | _ => (.error .invalidArguments, store)
      else if cmd = setWord then
        if msg.length < 3 then (.error .invalidArguments, store)
        else
          match msg[1]? with
          | some (RedisValue.string key) =>
            match msg[2]? with
            | some (RedisValue.string v) =>
              if 4 < msg.length then
                match msg[3]? with
                | some (RedisValue.string flag) =>
                  match msg[4]? with
                  | some (RedisValue.string optStr) =>
                    match parseU64 optStr with
                    | some opt =>
                      if lowerAscii flag = pxWord then
                        (.ok OK, storeInsert store key (v, some (now, opt)))
                      else (.error .invalidArguments, store)
                    | none => (.error .parsingError, store)
                  | _ => (.error .invalidArguments, store)
                | _ => (.error .invalidArguments, store)
              else (.ok OK, storeInsert store key (v, none))
            | _ => (.error .invalidArguments, store)
          | _ => (.error .invalidArguments, store)
      else (.error .invalidCommand, store)
    | _ => (.error .invalidCommand, store)

/-! ### Lemmas about the carriage-return scanner -/

theorem findCRAux_of_no_cr (l : List Nat) (pos : Nat) (h : ∀ b ∈ l, b ≠ 13) :
    findCRAux l pos = none := by
  induction l generalizing pos with
  | nil => rfl
  | cons b r ih =>
    have hb : b ≠ 13 := h b (List.mem_cons_self b r)
    simp only [findCRAux]
    rw [if_neg hb]
    exact ih (pos + 1) fun x hx => h x (List.mem_cons_of_mem b hx)

theorem findCRAux_append_cr (q r : List Nat) (pos : Nat) (h : ∀ b ∈ q, b ≠ 13) :
    findCRAux (q ++ 13 :: r) pos = some (pos + q.length) := by
  induction q generalizing pos with
  | nil => simp [findCRAux]
  | cons b q ih =>
    have hb : b ≠ 13 := h b (List.mem_cons_self b q)
    simp only [List.cons_append, findCRAux, List.append_eq]
    rw [if_neg hb, ih (pos + 1) fun x hx => h x (List.mem_cons_of_mem b hx)]
    simp only [Option.some.injEq, List.length_cons]
    omega

/-! ### Lemmas about decimal digit strings -/

theorem digitsVal_append (l1 l2 : List Nat) (a : Nat) :
    digitsVal a (l1 ++ l2) =
      match digitsVal a l1 with
      | some m => digitsVal m l2
      | none => none := by
  induction l1 generalizing a with
  | nil => rfl
  | cons b r ih =>
    cases hb : isDigit b with
    | true => simp [digitsVal, hb, ih]
    | false => simp [digitsVal, hb]

theorem natToDigits_acc (f : Nat) : ∀ n acc, natToDigits f n acc = natToDigits f n [] ++ acc := by
  induction f with
  | zero => intro n acc; rfl
  | succ f ih =>
    intro n acc
    by_cases hn : n = 0
    · simp [natToDigits, hn]
    · simp only [natToDigits, if_neg hn]
      rw [ih (n / 10) ((n % 10 + 48) :: acc), ih (n / 10) [n % 10 + 48]]
      simp

theorem natToDigits_val (f : Nat) : ∀ n a, n ≤ f →
    digitsVal a (natToDigits f n []) =
      some (a * 10 ^ (natToDigits f n []).length + n) := by
  induction f with
  | zero =>
    intro n a hn
    have hn0 : n = 0 := by omega
    subst hn0
    simp [natToDigits, digitsVal]
  | succ f ih =>
    intro n a hn
    by_cases hn0 : n = 0
    · subst hn0; simp [natToDigits, digitsVal]
    · have hsplit : natToDigits (f + 1) n [] = natToDigits f (n / 10) [] ++ [n % 10 + 48] := by
        simp only [natToDigits, if_neg hn0]
        exact natToDigits_acc f (n / 10) [n % 10 + 48]
      rw [hsplit, digitsVal_append]
      have hd : n / 10 ≤ f :=
        Nat.le_of_lt_succ
          (Nat.lt_of_lt_of_le (Nat.div_lt_self (Nat.pos_of_ne_zero hn0) (by norm_num)) hn)
      rw [ih (n / 10) a hd]
      have hdig : isDigit (n % 10 + 48) = true := by
        have : n % 10 < 10 := Nat.mod_lt n (by norm_num)
        simp only [isDigit, Bool.and_eq_true, decide_eq_true_eq]
        omega
      simp only [digitsVal, hdig, if_true, List.length_append, List.length_cons,
        List.length_nil]
      congr 1
      have h10 : 10 * (n / 10) + n % 10 = n := Nat.div_add_mod n 10
      have hsub : n % 10 + 48 - 48 = n % 10 := by omega
      rw [hsub, Nat.add_mul, Nat.add_assoc, Nat.mul_comm (n / 10) 10, h10,
        Nat.zero_add, pow_succ, Nat.mul_assoc]

theorem natToDigits_mem (f : Nat) : ∀ n acc b, b ∈ natToDigits f n acc →
    (48 ≤ b ∧ b ≤ 57) ∨ b ∈ acc := by
  induction f with
  | zero => intro n acc b hb; exact Or.inr hb
  | succ f ih =>
    intro n acc b hb
    by_cases hn : n = 0
    · rw [natToDigits, if_pos hn] at hb
      exact Or.inr hb
    · rw [natToDigits, if_neg hn] at hb
      rcases ih (n / 10) ((n % 10 + 48) :: acc) b hb with h | h
      · exact Or.inl h
      · rcases List.mem_cons.mp h with h | h
        · subst h
          have : n % 10 < 10 := Nat.mod_lt n (by norm_num)
          exact Or.inl (by omega)
        · exact Or.inr h

theorem natDigits_mem (n b : Nat) (hb : b ∈ natDigits n) : 48 ≤ b ∧ b ≤ 57 := by
  by_cases hn : n = 0
  · rw [natDigits, if_pos hn] at hb
    rcases List.mem_singleton.mp hb with rfl
    omega
  · rw [natDigits, if_neg hn] at hb
    rcases natToDigits_mem n n [] b hb with h | h
    · exact h
    · simp at h

theorem natDigits_ne_nil (n : Nat) : natDigits n ≠ [] := by
  by_cases hn : n = 0
  · rw [natDigits, if_pos hn]; simp
  · rw [natDigits, if_neg hn]
    obtain ⟨f, rfl⟩ : ∃ f, n = f + 1 := ⟨n - 1, by omega⟩
    rw [natToDigits, if_neg hn, natToDigits_acc]
    simp

theorem natDigits_digitsVal (n : Nat) : digitsVal 0 (natDigits n) = some n := by
  by_cases hn : n = 0
  · subst hn; rfl
  · rw [natDigits, if_neg hn, natToDigits_val n n 0 (le_refl n)]
    simp

theorem parseI64_natDigits (n : Nat) (h : n ≤ 9223372036854775807) :
    parseI64 (natDigits n) = some (n : Int) := by
  rcases hx : natDigits n with _ | ⟨b, r⟩
  · exact absurd hx (natDigits_ne_nil n)
  · have hb : 48 ≤ b ∧ b ≤ 57 :=
      natDigits_mem n b (hx ▸ List.mem_cons_self b r)
    have h43 : ¬b = 43 := by omega
    have h45 : ¬b = 45 := by omega
    have hval : digitsVal 0 (b :: r) = some n := hx ▸ natDigits_digitsVal n
    simp only [parseI64, if_neg h43, if_neg h45, digitsNE, hval, posCase, if_pos h]

/-! ### Lemmas about the store -/

theorem storeGet_storeInsert (store : KVStore) (k : List Nat)
    (v : List Nat × Option Expiry) :
    storeGet (storeInsert store k v) k = some v := by
  induction store with
  | nil => simp [storeInsert, storeGet]
  | cons e r ih =>
    obtain ⟨k2, v2⟩ := e
    by_cases hk : k2 = k
    · subst hk; simp [storeInsert, storeGet]
    · simp [storeInsert, storeGet, hk, ih]

/-- Evaluation of the `get` arm on a two-element message: everything up to
the store lookup is definitional. -/
theorem execute_get_eval (now : Nat) (key : List Nat) (store : KVStore) :
    execute now [.string getWord, .string key] store =
      (match storeGet store key with
       | some (v2, none) => (.ok (bulkFrame v2), store)
       | some (v2, some (start, dur)) =>
         if now - start < dur then (.ok (bulkFrame v2), store) else (.ok NULL, store)
       | none => (.ok NULL, store)) := rfl

/-! ### Claim theorems -/

/-- C1: the spec's round-trip property `decode(encode(v), 0) =
Ok(Some((len(encode(v)), v)))` fails on the code: for `v = List [Integer 0]`
the encoding is the 8-byte `*1\r\n:0\r\n`, but decoding returns the cursor
4 — the position right after the array's count line, because `array`
returns the shadowed outer `pos` instead of the accumulated `curr_pos` —
so no value is returned together with the full length 8. -/
theorem c1_round_trip_cursor_bug :
    encode (.array [.int 0]) = [42, 49, 13, 10, 58, 48, 13, 10] ∧
    (encode (.array [.int 0])).length = 8 ∧
    parse (encode (.array [.int 0])) 0 = .ok (some (4, .array [.int 0])) ∧
    parse (encode (.array [.int 0])) 0 ≠
      .ok (some ((encode (.array [.int 0])).length, .array [.int 0])) := by
  refine ⟨rfl, rfl, rfl, fun h => ?_⟩
  rw [show parse (encode (.array [.int 0])) 0 =
      PResult.ok (some (4, RedisValue.array [RedisValue.int 0])) from rfl,
    show (encode (.array [.int 0])).length = 8 from rfl] at h
  simp at h

/-- C2: the claim that the decoder never panics fails on the code: the
truncated array `*1\r\n` drives the element loop to call `parse` at
position 4 = `buf.len()`, where `buf[pos]` is out of bounds; the simple
string `+\xff\r\n` makes `from_utf8(..).unwrap()` abort; and `parse` on a
non-empty buffer with an out-of-range start position indexes out of
bounds directly. -/
theorem c2_decoder_panics :
    parse [42, 49, 13, 10] 0 = .panic ∧
    parse [43, 255, 13, 10] 0 = .panic ∧
    parse [120] 1 = .panic :=
  ⟨rfl, rfl, rfl⟩

/-- C4: bulk-string decoding does not take the declared payload verbatim:
for `n = 1` and payload `p = "\r"`, the input `$1\r\n\r\r\n` decodes to
`Text("")` with cursor 6 — `simple_string` stops at the first carriage
return of the payload instead of taking the declared 1 byte — rather than
`Text("\r")` with cursor 7 as the claim requires. -/
theorem c4_bulk_payload_truncated :
    parse [36, 49, 13, 10, 13, 13, 10] 0 = .ok (some (6, .string [])) ∧
    parse [36, 49, 13, 10, 13, 13, 10] 0 ≠ .ok (some (7, .string [13])) := by
  refine ⟨rfl, fun h => ?_⟩
  rw [show parse [36, 49, 13, 10, 13, 13, 10] 0 =
      PResult.ok (some (6, RedisValue.string [])) from rfl] at h
  simp at h

/-- C3 counterexample: the strict prefix `:0\r` of the valid encoded
message `:0\r\n` does not decode to `Ok(None)`: the word scanner only
requires the `\r`, so the prefix already decodes to the complete value
with cursor 4. -/
theorem c3_prefix_counterexample :
    parse [58, 48, 13, 10] 0 = .ok (some (4, .int 0)) ∧
    parse [58, 48, 13] 0 = .ok (some (4, .int 0)) ∧
    parse [58, 48, 13] 0 ≠ .ok none := by
  refine ⟨rfl, rfl, fun h => ?_⟩
  rw [show parse [58, 48, 13] 0 = PResult.ok (some (4, RedisValue.int 0)) from rfl] at h
  simp at h

/-- C5 counterexample: `PING` with an extra argument is answered with
`+PONG\r\n` and no error — the `ping` arm never inspects the argument
count — contradicting the claim that every wrong-arity command yields
`InvalidArguments`. -/
theorem c5_ping_arity_counterexample :
    execute 0 [.string [112, 105, 110, 103], .string [120]] [] = (.ok PONG, []) ∧
    (execute 0 [.string [112, 105, 110, 103], .string [120]] []).1 ≠
      .error .invalidArguments := by
  refine ⟨rfl, fun h => ?_⟩
  rw [show (execute 0 [RedisValue.string [112, 105, 110, 103],
      RedisValue.string [120]] ([] : KVStore)).1 = Except.ok PONG from rfl] at h
  simp at h

/-- C5 amended: the argument validation the code actually performs.
`InvalidArguments` is returned for: `ECHO`/`GET` with no argument, `GET`
with a non-Text key, `SET` with fewer than two arguments or a non-Text
key or value, and (with five or more elements) a non-Text flag or count
or an unrecognized flag.  But `PING` ignores extra arguments, `ECHO` with
a non-Text argument returns success with no reply at all, and `SET` with
exactly one trailing token after the value silently ignores it; a
non-numeric `PX` count yields the distinct `ParsingError`. -/
theorem c5_argument_validation (now : Nat) (store : KVStore) :
    (execute now [.string echoWord] store = (.error .invalidArguments, store)) ∧
    (execute now [.string getWord] store = (.error .invalidArguments, store)) ∧
    (∀ i : Int, execute now [.string getWord, .int i] store =
      (.error .invalidArguments, store)) ∧
    (execute now [.string setWord] store = (.error .invalidArguments, store)) ∧
    (∀ k, execute now [.string setWord, .string k] store =
      (.error .invalidArguments, store)) ∧
    (∀ (i : Int) (v : RedisValue), execute now [.string setWord, .int i, v] store =
      (.error .invalidArguments, store)) ∧
    (∀ k (i : Int), execute now [.string setWord, .string k, .int i] store =
      (.error .invalidArguments, store)) ∧
    (∀ k v (i : Int) (o : RedisValue),
      execute now [.string setWord, .string k, .string v, .int i, o] store =
        (.error .invalidArguments, store)) ∧
    (∀ k v f (i : Int),
      execute now [.string setWord, .string k, .string v, .string f, .int i] store =
        (.error .invalidArguments, store)) ∧
    (∀ k v, execute now [.string setWord, .string k, .string v,
        .string [97], .string [53, 48]] store = (.error .invalidArguments, store)) ∧
    (∀ k v, execute now [.string setWord, .string k, .string v,
        .string pxWord, .string [120]] store = (.error .parsingError, store)) ∧
    (∀ (x : RedisValue) (rest : List RedisValue),
      execute now (.string pingWord :: x :: rest) store = (.ok PONG, store)) ∧
    (∀ i : Int, execute now [.string echoWord, .int i] store = (.ok [], store)) ∧
    (∀ k v (t : RedisValue), execute now [.string setWord, .string k, .string v, t] store =
      (.ok OK, storeInsert store k (v, none))) := by
  exact ⟨rfl, rfl, fun i => rfl, rfl, fun k => rfl, fun i v => rfl, fun k i => rfl,
    fun k v i o => rfl, fun k v f i => rfl, fun k v => rfl, fun k v => rfl,
    fun x rest => rfl, fun i => rfl, fun k v t => rfl⟩

/-- C6: `GET` replies the stored value framed as a bulk string when the
key is present and not expired (no expiry, or elapsed time `now - start`
strictly below the duration, both evaluated at read time), and replies
the null bulk `$-1\r\n` when the key is absent or its duration has been
reached. -/
theorem c6_get_expiry (now : Nat) (key v : List Nat) (store : KVStore) :
    (storeGet store key = some (v, none) →
      execute now [.string getWord, .string key] store = (.ok (bulkFrame v), store)) ∧
    (∀ start dur, storeGet store key = some (v, some (start, dur)) → now - start < dur →
      execute now [.string getWord, .string key] store = (.ok (bulkFrame v), store)) ∧
    (∀ start dur, storeGet store key = some (v, some (start, dur)) → dur ≤ now - start →
      execute now [.string getWord, .string key] store = (.ok NULL, store)) ∧
    (storeGet store key = none →
      execute now [.string getWord, .string key] store = (.ok NULL, store)) := by
  refine ⟨fun h => ?_, fun start dur h hlt => ?_, fun start dur h hge => ?_, fun h => ?_⟩
  · rw [execute_get_eval, h]
  · rw [execute_get_eval, h]
    exact if_pos hlt
  · rw [execute_get_eval, h]
    exact if_neg (by omega)
  · rw [execute_get_eval, h]

/-- Witness for C6 at a concrete store: key `k` set at instant 0 with a
10 ms expiry is served at `now = 5` and answered null at `now = 10`. -/
theorem c6_get_expiry_witness :
    execute 5 [.string getWord, .string [107]] [([107], ([118], some (0, 10)))] =
      (.ok (bulkFrame [118]), [([107], ([118], some (0, 10)))]) ∧
    execute 10 [.string getWord, .string [107]] [([107], ([118], some (0, 10)))] =
      (.ok NULL, [([107], ([118], some (0, 10)))]) :=
  ⟨(c6_get_expiry 5 [107] [118] _).2.1 0 10 rfl (by norm_num),
   (c6_get_expiry 10 [107] [118] _).2.2.1 0 10 rfl (by norm_num)⟩

/-- C7: `SET key value` without `PX` replaces any prior entry wholesale
with one that has no expiry, replies `+OK\r\n`, and a later `GET` at any
time `now2` returns the new value framed as a bulk string. -/
theorem c7_overwrite (now now2 : Nat) (k v : List Nat) (store : KVStore) :
    execute now [.string setWord, .string k, .string v] store =
      (.ok OK, storeInsert store k (v, none)) ∧
    storeGet (storeInsert store k (v, none)) k = some (v, none) ∧
    execute now2 [.string getWord, .string k] (storeInsert store k (v, none)) =
      (.ok (bulkFrame v), storeInsert store k (v, none)) := by
  have h2 := storeGet_storeInsert store k (v, none)
  refine ⟨rfl, h2, ?_⟩
  rw [execute_get_eval, h2]

/-- C8 counterexample: an empty top-level array is rejected with
`UnknownStartingByte`, not with `InvalidCommand` as the claim states. -/
theorem c8_empty_counterexample :
    execute 0 [] [] = (.error .unknownStartingByte, []) ∧
    (execute 0 [] ([] : KVStore)).1 ≠ .error .invalidCommand := by
  refine ⟨rfl, fun h => ?_⟩
  rw [show (execute 0 [] ([] : KVStore)).1 =
      Except.error RESPError.unknownStartingByte from rfl] at h
  simp at h

/-- C8 amended: an empty decoded command yields `UnknownStartingByte`,
while `InvalidCommand` is reserved for a first element that is not a Text
string or a command name outside `ping`/`echo`/`get`/`set`
(case-insensitively). -/
theorem c8_error_kinds (now : Nat) (store : KVStore) (c : List Nat)
    (rest : List RedisValue)
    (h1 : lowerAscii c ≠ pingWord) (h2 : lowerAscii c ≠ echoWord)
    (h3 : lowerAscii c ≠ getWord) (h4 : lowerAscii c ≠ setWord) :
    execute now [] store = (.error .unknownStartingByte, store) ∧
    execute now (.string c :: rest) store = (.error .invalidCommand, store) ∧
    (∀ (i : Int) (rest2 : List RedisValue),
      execute now (.int i :: rest2) store = (.error .invalidCommand, store)) := by
  refine ⟨rfl, ?_, fun i rest2 => rfl⟩
  show execute now (RedisValue.string c :: rest) store = _
  unfold execute
  dsimp only
  rw [if_neg h1, if_neg h2, if_neg h3, if_neg h4]

/-- Witness for C8 amended: the unrecognized command name `nope`. -/
theorem c8_error_kinds_witness :
    execute 0 [.string [110, 111, 112, 101]] [] = (.error .invalidCommand, []) :=
  (c8_error_kinds 0 [] [110, 111, 112, 101] [] (by decide) (by decide) (by decide)
    (by decide)).2.1

/-- C9: every command whose (case-folded) name is not `set` — including
`GET` on an expired entry, every error path, and non-Text commands —
leaves the store exactly unchanged; only the `set` arm inserts. -/
theorem c9_read_only_frame (now : Nat) (msg : List RedisValue) (store : KVStore)
    (h : ∀ c, msg.head? = some (.string c) → lowerAscii c ≠ setWord) :
    (execute now msg store).2 = store := by
  cases msg with
  | nil => rfl
  | cons first rest =>
    cases first with
    | string c =>
      have hset : lowerAscii c ≠ setWord := h c rfl
      unfold execute
      dsimp only
      by_cases h1 : lowerAscii c = pingWord
      · rw [if_pos h1]
      · rw [if_neg h1]
        by_cases h2 : lowerAscii c = echoWord
        · rw [if_pos h2]
          repeat' (first | rfl | split)
        · rw [if_neg h2]
          by_cases h3 : lowerAscii c = getWord
          · rw [if_pos h3]
            repeat' (first | rfl | split)
          · rw [if_neg h3, if_neg hset]
    | error s => rfl
    | int i => rfl
    | array xs => rfl
    | nullArray => rfl
    | nullBulkString => rfl

/-- Witness for C9: a `ping` message against a one-entry store. -/
theorem c9_read_only_frame_witness :
    (execute 0 [.string [112, 105, 110, 103]] [([107], ([118], none))]).2 =
      [([107], ([118], none))] :=
  c9_read_only_frame 0 [.string [112, 105, 110, 103]] [([107], ([118], none))]
    (fun c hc => by
      injection hc with hc2
      injection hc2 with hc3
      subst hc3
      decide)

/-- Dispatch on the `$` marker: everything before the length word is
definitional. -/
theorem parse_dollar (t : List Nat) : parse (36 :: t) 0 = bulk_string (36 :: t) 1 := by
  show parseF ((36 :: t).length + 1) (36 :: t) 0 = _
  simp only [List.length_cons, parseF, List.getElem?_cons_zero]

/-- Reading the length word of a header `$<digits(n)>\r...`: the scanner
stops at the `\r` that follows the digits of `n`, and the digits parse
back to `n`. -/
theorem int_header (n : Nat) (rest : List Nat) (hn : n ≤ 9223372036854775807) :
    int (36 :: (natDigits n ++ 13 :: rest)) 1 =
      .ok (some (1 + (natDigits n).length + 2, (n : Int))) := by
  have hmem : ∀ b ∈ natDigits n, b ≠ 13 := fun b hb => by
    have := natDigits_mem n b hb
    omega
  simp only [int, word, findCR, List.drop_succ_cons, List.drop_zero,
    findCRAux_append_cr (natDigits n) rest 1 hmem]
  simp only [sliceOf, List.drop_succ_cons, List.drop_zero,
    show 1 + (natDigits n).length - 1 = (natDigits n).length from by omega,
    List.take_left, parseI64_natDigits n hn]

/-- Evaluation of `bulk_string` on a well-formed header `$<digits(n)>\r...`:
after the length word, only the buffer-length guard and the payload re-scan
remain. -/
theorem bulk_eval (n : Nat) (rest : List Nat) (hn : n ≤ 9223372036854775807) :
    bulk_string (36 :: (natDigits n ++ 13 :: rest)) 1 =
      (if (36 :: (natDigits n ++ 13 :: rest)).length <
          1 + (natDigits n).length + 2 + n + 2 then .ok none
       else simple_string (36 :: (natDigits n ++ 13 :: rest))
         (1 + (natDigits n).length + 2)) := by
  simp only [bulk_string, int_header n rest hn]
  rw [if_neg (by omega : ¬((n : Int) = -1)), if_pos (by omega : (0 : Int) ≤ (n : Int))]
  simp only [Int.toNat_natCast]

/-- Evaluation of `simple_string` at the start of a `\r`-free word `q`
followed by `13 :: r`: the value is exactly `q` and the cursor lands two
past the carriage return. -/
theorem simple_string_eval (pre q r : List Nat) (pos : Nat) (hpos : pos = pre.length)
    (hq : ∀ b ∈ q, b ≠ 13) (hu : isValidUtf8 q = true) :
    simple_string (pre ++ (q ++ 13 :: r)) pos =
      .ok (some (pos + q.length + 2, .string q)) := by
  subst hpos
  simp only [simple_string, word, findCR, List.drop_left,
    findCRAux_append_cr q r pre.length hq]
  simp only [sliceOf, List.drop_left, Nat.add_sub_cancel_left, List.take_left]
  rw [if_pos hu]

/-- C3 amended: the strict-prefix/extension property holds for bulk-string
messages.  For every payload `p` free of carriage returns, valid as UTF-8
and of length within `i64`, with `m = $<|p|>\r\n<p>\r\n`: decoding any
strict prefix of `m` from 0 is `Ok(None)`; decoding `m` yields
`Text(p)` with cursor `|m|`; and decoding `m` with one extra trailing byte
yields the same value and the same cursor, not consuming the extra byte.
(For line-terminated messages the property fails — see the C3
counterexample — and an incomplete array element yields `UnexpectedEnd`.) -/
theorem c3_bulk_prefix_monotonicity (p : List Nat)
    (hp : ∀ b ∈ p, b ≠ 13) (hu : isValidUtf8 p = true)
    (hlen : p.length ≤ 9223372036854775807) :
    (∀ k, k < (encode (.string p)).length →
      parse ((encode (.string p)).take k) 0 = .ok none) ∧
    parse (encode (.string p)) 0 =
      .ok (some ((encode (.string p)).length, .string p)) ∧
    (∀ x, parse (encode (.string p) ++ [x]) 0 =
      .ok (some ((encode (.string p)).length, .string p))) := by
  have hdmem : ∀ b ∈ natDigits p.length, b ≠ 13 := fun b hb => by
    have := natDigits_mem p.length b hb
    omega
  have henc : encode (.string p) =
      36 :: (natDigits p.length ++ 13 :: (10 :: (p ++ 13 :: [10]))) := by
    simp [encode]
  have hlenm : (encode (.string p)).length =
      (natDigits p.length).length + p.length + 5 := by
    rw [henc]
    simp only [List.length_cons, List.length_append, List.length_nil]
    omega
  have hsplitPre : 36 :: (natDigits p.length ++ 13 :: (10 :: (p ++ 13 :: [10]))) =
      (36 :: (natDigits p.length ++ [13, 10])) ++ (p ++ 13 :: [10]) := by
    simp [List.append_assoc]
  refine ⟨?_, ?_, ?_⟩
  · -- strict prefixes
    intro k hk
    match k with
    | 0 => rfl
    | j + 1 =>
      rw [henc] at hk ⊢
      simp only [List.length_cons, List.length_append, List.length_nil] at hk
      rw [List.take_succ_cons, parse_dollar]
      rcases le_or_lt j (natDigits p.length).length with hj | hj
      · -- prefix still inside the digits of the header
        have htake : (natDigits p.length ++ 13 :: (10 :: (p ++ 13 :: [10]))).take j =
            (natDigits p.length).take j := by
          rw [List.take_append_eq_append_take,
            show j - (natDigits p.length).length = 0 from by omega]
          simp
        rw [htake]
        simp only [bulk_string, int, word, findCR, List.drop_succ_cons, List.drop_zero]
        rw [findCRAux_of_no_cr ((natDigits p.length).take j) 1
          (fun b hb => hdmem b (List.take_subset j (natDigits p.length) hb))]
      · -- the header's carriage return is included: length guard catches it
        have hsplit3 : (natDigits p.length ++ 13 :: (10 :: (p ++ 13 :: [10]))).take j =
            natDigits p.length ++ 13 :: ((10 :: (p ++ 13 :: [10])).take
              (j - (natDigits p.length).length - 1)) := by
          rw [List.take_append_eq_append_take,
            List.take_of_length_le (by omega : (natDigits p.length).length ≤ j),
            show j - (natDigits p.length).length =
              (j - (natDigits p.length).length - 1) + 1 from by omega,
            List.take_succ_cons,
            show j - (natDigits p.length).length - 1 + 1 - 1 =
              j - (natDigits p.length).length - 1 from by omega]
        rw [hsplit3, bulk_eval p.length _ hlen,
          if_pos (by
            simp only [List.length_cons, List.length_append, List.length_nil,
              List.length_take]
            omega)]
  · -- the complete message
    rw [hlenm, henc, parse_dollar, bulk_eval p.length (10 :: (p ++ 13 :: [10])) hlen,
      if_neg (by simp only [List.length_cons, List.length_append, List.length_nil]; omega),
      hsplitPre,
      simple_string_eval (36 :: (natDigits p.length ++ [13, 10])) p [10]
        (1 + (natDigits p.length).length + 2)
        (by simp only [List.length_cons, List.length_append, List.length_nil]; omega) hp hu]
    simp only [PResult.ok.injEq, Option.some.injEq, Prod.mk.injEq]
    exact ⟨by omega, trivial⟩
  · -- one extra trailing byte
    intro x
    have henc2 : encode (.string p) ++ [x] =
        36 :: (natDigits p.length ++ 13 :: (10 :: (p ++ 13 :: (10 :: [x])))) := by
      rw [henc]
      simp [List.append_assoc]
    have hsplitPre2 : 36 :: (natDigits p.length ++ 13 :: (10 :: (p ++ 13 :: (10 :: [x])))) =
        (36 :: (natDigits p.length ++ [13, 10])) ++ (p ++ 13 :: (10 :: [x])) := by
      simp [List.append_assoc]
    rw [hlenm, henc2, parse_dollar,
      bulk_eval p.length (10 :: (p ++ 13 :: (10 :: [x]))) hlen,
      if_neg (by simp only [List.length_cons, List.length_append, List.length_nil]; omega),
      hsplitPre2,
      simple_string_eval (36 :: (natDigits p.length ++ [13, 10])) p (10 :: [x])
        (1 + (natDigits p.length).length + 2)
        (by simp only [List.length_cons, List.length_append, List.length_nil]; omega) hp hu]
    simp only [PResult.ok.injEq, Option.some.injEq, Prod.mk.injEq]
    exact ⟨by omega, trivial⟩

/-- Witness for C3 amended at the payload `ab`: the full message decodes
with cursor 8 and the 7-byte strict prefix is incomplete. -/
theorem c3_bulk_witness :
    parse (encode (.string [97, 98])) 0 = .ok (some (8, .string [97, 98])) ∧
    parse ((encode (.string [97, 98])).take 7) 0 = .ok none := by
  have h := c3_bulk_prefix_monotonicity [97, 98] (by decide) (by decide) (by decide)
  constructor
  · have h2 := h.2.1
    rw [show (encode (.string [97, 98])).length = 8 from rfl] at h2
    exact h2
  · exact h.1 7 (by rw [show (encode (.string [97, 98])).length = 8 from rfl]; omega)

/-- C10: the word scanner accepts any token whose first carriage return is
inside the buffer and unconditionally advances the cursor two bytes past
it, never examining the byte after the `\r`: a line «terminated» by
`\r` followed by an arbitrary non-`\n` byte still decodes, and a buffer
ending exactly at the `\r` yields a new cursor strictly beyond the
buffer's length. -/
theorem c10_word_terminator_leniency :
    (∀ (pre q r : List Nat), (∀ b ∈ q, b ≠ 13) →
      word (pre ++ q ++ 13 :: r) pre.length =
        some (pre.length + q.length + 2, pre.length, pre.length + q.length)) ∧
    parse [43, 97, 13, 120, 121] 0 = .ok (some (4, .string [97])) ∧
    parse [43, 97, 13] 0 = .ok (some (4, .string [97])) ∧
    ([43, 97, 13] : List Nat).length < 4 := by
  refine ⟨fun pre q r h => ?_, rfl, rfl, by norm_num⟩
  simp only [word, findCR, List.append_assoc, List.drop_left]
  rw [findCRAux_append_cr q r pre.length h]

/-- Witness for C10: the three-byte buffer `+a\r` — the scanner returns
cursor 4, one past the end. -/
theorem c10_word_witness : word [43, 97, 13] 1 = some (4, 1, 2) := by
  have h := c10_word_terminator_leniency.1 [43] [97] [] (by decide)
  simpa using h

end Redis
